import Mathlib

/-!
Verification of `examples/pytorch/gcn/gcn_spmv.py` (GCN using builtin
functions enabling SPMV optimization, plus the Egl offloaded variant).

Shallow embedding: feature tensors are row-major matrices over an
arbitrary commutative ring `α` (the scalar type of the tensor library;
concrete witnesses instantiate `α := ℤ`); the graph's node-data store
`g.ndata` is a key/value association list; the call
`update_all(fn.copy_src('h','m'), fn.sum('m','h'))` is an in-neighbor
sum acting on the store; dropout, activation and the sampled parameters
are opaque values supplied from outside, exactly as the script receives
them from the libraries. The `reset_parameters` sampling is modelled
over the reals at the end of the definition section.
-/

variable {α : Type} [CommRing α]

/-- A feature matrix: one row per node. -/
abbrev Mat (α : Type) := List (List α)

/-- Number of columns of a matrix (length of its first row, 0 if empty). -/
def numCols (m : Mat α) : Nat := (m.headD []).length

/-- The all-zero feature vector of dimension `d`. -/
def zeroVec (α : Type) [CommRing α] (d : Nat) : List α := List.replicate d 0

/-- Elementwise vector addition (zipWith, as tensor addition). -/
def vecAdd (a b : List α) : List α := List.zipWith (· + ·) a b

/-- Scale every entry of a vector by a scalar. -/
def vecScale (a : List α) (c : α) : List α := a.map (· * c)

/-- Sum of a list of `d`-dimensional vectors, starting from zero
(Python's `sum([...])` pattern, with the zero tensor as the base). -/
def sumVecs (d : Nat) (l : List (List α)) : List α :=
  l.foldl vecAdd (zeroVec α d)

/-- Row `u` of a matrix, defaulting to the zero vector of dimension `d`. -/
def getRowD (m : Mat α) (u : Nat) (d : Nat) : List α := m.getD u (zeroVec α d)

/-- Entry `(i, j)` of a matrix, defaulting to 0. -/
def matEntry (m : Mat α) (i j : Nat) : α := (m.getD i []).getD j 0

/-- `torch.mm`: dense matrix product, `(A B)[i][j] = Σ_l A[i][l] * B[l][j]`. -/
def matMul (A B : Mat α) : Mat α :=
  A.map (fun row =>
    (List.range (numCols B)).map (fun j =>
      ((row.zip B).map (fun p => p.1 * p.2.getD j 0)).sum))

/-- Broadcast product `h * norm` of an `(n, d)` tensor with an `(n, 1)`
tensor: row `i` of `h` is scaled by the single entry of row `i` of `norm`. -/
def bmul (h nrm : Mat α) : Mat α :=
  List.zipWith (fun row nr => vecScale row (nr.headD 0)) h nrm

/-- The scalar held by row `i` of an `(n, 1)` tensor, 0 out of range. -/
def colScalar (nrm : Mat α) (i : Nat) : α := (nrm.getD i []).headD 0

/-- `h + bias`: broadcast addition of a length-`d` vector to every row. -/
def addBias (h : Mat α) (b : List α) : Mat α := h.map (fun row => vecAdd row b)

/-- Apply an optional elementwise module (dropout / activation); `none`
models the disabled case (`if self.dropout:` / `if self.activation:`). -/
def applyOpt (f : Option (Mat α → Mat α)) (h : Mat α) : Mat α :=
  match f with
  | some f => f h
  | none => h

/-- A DGL graph: number of nodes and a directed edge list `(src, dst)`. -/
structure Graph where
  numNodes : Nat
  edges : List (Nat × Nat)
deriving Repr, DecidableEq

/-- Edges entering node `v` (the message-sending side is `e.1`). -/
def inEdges (g : Graph) (v : Nat) : List (Nat × Nat) :=
  g.edges.filter (fun e => e.2 = v)

/-- Every edge endpoint names an existing node. -/
def Graph.wf (g : Graph) : Prop :=
  ∀ e ∈ g.edges, e.1 < g.numNodes ∧ e.2 < g.numNodes

instance (g : Graph) : Decidable g.wf := by
  unfold Graph.wf; infer_instance

/-- The sparse matrix-vector product behind
`update_all(fn.copy_src(src='h', out='m'), fn.sum(msg='m', out='h'))`:
row `v` of the result is the sum of row `src` of `h` over the edges
entering `v`, and the zero vector when no edge enters `v`. -/
def spmv (g : Graph) (h : Mat α) : Mat α :=
  (List.range g.numNodes).map (fun v =>
    sumVecs (numCols h) ((inEdges g v).map (fun e => getRowD h e.1 (numCols h))))

/-- The node-data store `g.ndata`: an association list from keys to
tensors, read and written by key exactly as a Python dict. -/
abbrev NData (α : Type) := List (String × Mat α)

/-- `g.ndata[k]` as a lookup: `some` the stored tensor, `none` on a
missing key (Python's `KeyError`). -/
def NData.get (nd : NData α) (k : String) : Option (Mat α) :=
  (nd.find? (fun p => p.1 = k)).map Prod.snd

/-- Remove every binding of key `k`. -/
def NData.erase (nd : NData α) (k : String) : NData α :=
  nd.filter (fun p => p.1 ≠ k)

/-- `g.ndata[k] = v`: bind `k` to `v`, replacing any previous binding. -/
def NData.set (nd : NData α) (k : String) (v : Mat α) : NData α :=
  (k, v) :: nd.erase k

/-- `g.ndata.pop(k)`: return the bound tensor and the store without `k`;
`none` on a missing key. -/
def NData.pop (nd : NData α) (k : String) : Option (Mat α × NData α) :=
  match nd.get k with
  | some v => some (v, nd.erase k)
  | none => none

/-- `g.update_all(fn.copy_src(src='h', out='m'), fn.sum(msg='m', out='h'))`
acting on the store: replaces the tensor at key `'h'` by its in-neighbor
sum; a store without `'h'` is the library's error case. -/
def Graph.updateAllCopySum (g : Graph) (nd : NData α) : Option (NData α) :=
  match nd.get "h" with
  | some h => some (nd.set "h" (spmv g h))
  | none => none

/-- State of a `GCNLayer` after `__init__`: the graph, the (sampled)
weight `(in_feats, out_feats)`, the optional sampled bias, the optional
activation, and the dropout module (`none` when `dropout` was falsy). -/
structure GCNLayer (α : Type) where
  g : Graph
  weight : Mat α
  bias : Option (List α)
  activation : Option (Mat α → Mat α)
  dropout : Option (Mat α → Mat α)

/-- `GCNLayer.__init__`: records the graph and configuration; the weight
and bias hold the values sampled by `reset_parameters`, and `nn.Dropout(p)`
is the opaque module `dropFn`, kept only when `p` is nonzero
(`if dropout:`); `bias=True` stores the sampled vector, else `None`. -/
def GCNLayer.init (g : Graph) (activation : Option (Mat α → Mat α))
    (dropoutP : ℚ) (dropFn : Mat α → Mat α) (w : Mat α)
    (b : Option (List α)) : GCNLayer α :=
  { g := g
    weight := w
    bias := b
    activation := activation
    dropout := if dropoutP ≠ 0 then some dropFn else none }

/-- `GCNLayer.forward`, transcribed line by line: optional dropout,
`torch.mm(h, weight)`, `h * g.ndata['norm']`, store `'h'`, `update_all`,
`pop('h')`, `h * g.ndata['norm']`, optional bias, optional activation.
Returns the output and the updated store; `none` when a store lookup
raises (`KeyError` from the dict, the only failing library call modelled). -/
def GCNLayer.forward (l : GCNLayer α) (nd : NData α) (h : Mat α) :
    Option (Mat α × NData α) :=
  let h1 := applyOpt l.dropout h
  let h2 := matMul h1 l.weight
  match nd.get "norm" with
  | none => none
  | some nrm =>
    let h3 := bmul h2 nrm
    let nd1 := nd.set "h" h3
    match l.g.updateAllCopySum nd1 with
    | none => none
    | some nd2 =>
      match nd2.pop "h" with
      | none => none
      | some (h4, nd3) =>
        match nd3.get "norm" with
        | none => none
        | some nrm2 =>
          let h5 := bmul h4 nrm2
          let h6 := match l.bias with
            | some b => addBias h5 b
            | none => h5
          let h7 := applyOpt l.activation h6
          some (h7, nd3)

/-- `GCNLayer.forward` instrumented with a counter of the arithmetic
operations the script performs with operators of its own (as opposed to
the named library calls `torch.mm`, `update_all` and the store ops): the
two `h * norm` normalizations and the `h + bias` addition when bias is
present. Same control flow as `GCNLayer.forward`. -/
def GCNLayer.forwardCounted (l : GCNLayer α) (nd : NData α) (h : Mat α) :
    Option (Mat α × NData α × Nat) :=
  let h1 := applyOpt l.dropout h
  let h2 := matMul h1 l.weight
  match nd.get "norm" with
  | none => none
  | some nrm =>
    let h3 := bmul h2 nrm
    let c1 : Nat := 1
    let nd1 := nd.set "h" h3
    match l.g.updateAllCopySum nd1 with
    | none => none
    | some nd2 =>
      match nd2.pop "h" with
      | none => none
      | some (h4, nd3) =>
        match nd3.get "norm" with
        | none => none
        | some nrm2 =>
          let h5 := bmul h4 nrm2
          let c2 := c1 + 1
          match l.bias with
          | some b =>
            let h6 := addBias h5 b
            let c3 := c2 + 1
            some (applyOpt l.activation h6, nd3, c3)
          | none =>
            some (applyOpt l.activation h5, nd3, c2)

/-- State of an `EglGCNLayer` after `__init__`: like `GCNLayer` but with
the `'norm'` tensor snapshotted into the field `norm` at construction
(`self.norm = self.g.ndata['norm']`). -/
structure EglGCNLayer (α : Type) where
  g : Graph
  norm : Mat α
  weight : Mat α
  bias : Option (List α)
  activation : Option (Mat α → Mat α)
  dropout : Option (Mat α → Mat α)

/-- `EglGCNLayer.__init__`: reads `g.ndata['norm']` from the store as it
is at construction time and keeps the snapshot; `none` when the key is
missing (the dict lookup raises). Other fields as in `GCNLayer.init`. -/
def EglGCNLayer.init (g : Graph) (nd : NData α)
    (activation : Option (Mat α → Mat α)) (dropoutP : ℚ)
    (dropFn : Mat α → Mat α) (w : Mat α) (b : Option (List α)) :
    Option (EglGCNLayer α) :=
  (nd.get "norm").map (fun nrm =>
    { g := g
      norm := nrm
      weight := w
      bias := b
      activation := activation
      dropout := if dropoutP ≠ 0 then some dropFn else none })

/-- The body of the `cm.zoomIn` block of `EglGCNLayer.forward`, as run by
the offloaded backend over `node_feats={'h': h, 'norm': self.norm}`: for
every node `v`, `sum([nb.h * nb.norm for nb in v.innbs])` followed by
`h * v.norm`, where `nb.norm` and `v.norm` are the scalars of the
snapshot column. -/
def eglAggregate (g : Graph) (nrm : Mat α) (h : Mat α) : Mat α :=
  (List.range g.numNodes).map (fun v =>
    vecScale
      (sumVecs (numCols h)
        ((inEdges g v).map (fun e =>
          vecScale (getRowD h e.1 (numCols h)) (colScalar nrm e.1))))
      (colScalar nrm v))

/-- `EglGCNLayer.forward`: optional dropout, `torch.mm(h, weight)`, the
offloaded aggregation over the constructor's `norm` snapshot, optional
bias, optional activation. The current store `nd` is in scope (the
method holds `self.g`) but is never read: the aggregation uses only the
snapshot. Total: no store lookup occurs. -/
def EglGCNLayer.forward (l : EglGCNLayer α) (nd : NData α) (h : Mat α) :
    Mat α :=
  let _ := nd
  let h1 := applyOpt l.dropout h
  let h2 := matMul h1 l.weight
  let h3 := eglAggregate l.g l.norm h2
  let h4 := match l.bias with
    | some b => addBias h3 b
    | none => h3
  applyOpt l.activation h4

/-- `EglGCNLayer.forward` instrumented with the same operator counter as
`GCNLayer.forwardCounted`: the arithmetic operations the script performs
with operators of its own are the `nb.h * nb.norm` of the `zoomIn`
comprehension (one operator expression, `c1`), the `h = h * v.norm`
normalization (`c2`), and the `h + bias` addition when bias is present
(`c3`). Same control flow as `EglGCNLayer.forward`. -/
def EglGCNLayer.forwardCounted (l : EglGCNLayer α) (nd : NData α)
    (h : Mat α) : Mat α × Nat :=
  let _ := nd
  let h1 := applyOpt l.dropout h
  let h2 := matMul h1 l.weight
  let c1 : Nat := 1
  let h3 := eglAggregate l.g l.norm h2
  let c2 := c1 + 1
  match l.bias with
  | some b =>
    let h4 := addBias h3 b
    let c3 := c2 + 1
    (applyOpt l.activation h4, c3)
  | none =>
    (applyOpt l.activation h3, c2)

/-- `GCN.__init__`: one input layer (`dropout=0.`, the given activation),
`n_layers - 1` hidden layers (given activation and dropout), one output
layer (`activation=None`, given dropout). The sampled weight and bias of
the `i`-th constructed layer are `ws i` and `bs i` (`bias=True` default
everywhere). -/
def GCN.mkLayers (g : Graph) (nLayers : Nat)
    (activation : Option (Mat α → Mat α)) (dropoutP : ℚ)
    (dropFn : Mat α → Mat α) (ws : Nat → Mat α) (bs : Nat → List α) :
    List (GCNLayer α) :=
  [GCNLayer.init g activation 0 dropFn (ws 0) (some (bs 0))]
  ++ (List.range (nLayers - 1)).map (fun i =>
      GCNLayer.init g activation dropoutP dropFn (ws (i + 1))
        (some (bs (i + 1))))
  ++ [GCNLayer.init g none dropoutP dropFn (ws nLayers) (some (bs nLayers))]

/-- `GCN.forward`: `for layer in self.layers: h = layer(h)`, threading
the shared graph store through the layers; `none` as soon as a layer
fails. -/
def GCN.forwardLayers :
    List (GCNLayer α) → NData α → Mat α → Option (Mat α × NData α)
  | [], nd, h => some (h, nd)
  | l :: ls, nd, h =>
    match l.forward nd h with
    | none => none
    | some (h', nd') => GCN.forwardLayers ls nd' h'

/-- `EglGCN.__init__`: same layer schedule as `GCN.__init__` but with
`EglGCNLayer`s, each snapshotting `g.ndata['norm']` from the store as it
is at construction time; `none` when that key is missing. -/
def EglGCN.mkLayers (g : Graph) (nd : NData α) (nLayers : Nat)
    (activation : Option (Mat α → Mat α)) (dropoutP : ℚ)
    (dropFn : Mat α → Mat α) (ws : Nat → Mat α) (bs : Nat → List α) :
    Option (List (EglGCNLayer α)) :=
  match EglGCNLayer.init g nd activation 0 dropFn (ws 0) (some (bs 0)) with
  | none => none
  | some l0 =>
    match (List.range (nLayers - 1)).mapM (fun i =>
        EglGCNLayer.init g nd activation dropoutP dropFn (ws (i + 1))
          (some (bs (i + 1)))) with
    | none => none
    | some mid =>
      match EglGCNLayer.init g nd none dropoutP dropFn (ws nLayers)
          (some (bs nLayers)) with
      | none => none
      | some lN => some ([l0] ++ mid ++ [lN])

/-- `EglGCN.forward`: `for layer in self.layers: h = layer(h)`. -/
def EglGCN.forwardLayers : List (EglGCNLayer α) → NData α → Mat α → Mat α
  | [], _, h => h
  | l :: ls, nd, h => EglGCN.forwardLayers ls nd (l.forward nd h)

/-- Shape of the weight tensor `torch.Tensor(in_feats, out_feats)`;
`weight.size(1)` is its second component. -/
def weightShape (inF outF : Nat) : Nat × Nat := (inF, outF)

/-- `stdv = 1. / math.sqrt(self.weight.size(1))` of `reset_parameters`,
idealized over the reals. -/
noncomputable def gcnStdv (inF outF : Nat) : ℝ :=
  1 / Real.sqrt ((weightShape inF outF).2)

/-- `tensor.uniform_(lo, hi)` on one entry: the library draws
`u ∈ [0, 1]` and yields `lo + (hi - lo) * u`. -/
noncomputable def torchUniform (lo hi u : ℝ) : ℝ := lo + (hi - lo) * u

/-- The weight tensor after `self.weight.data.uniform_(-stdv, stdv)`,
with `u i j ∈ [0, 1]` the library's draw for entry `(i, j)`. -/
noncomputable def resetWeight (inF outF : Nat) (u : Nat → Nat → ℝ) :
    List (List ℝ) :=
  (List.range inF).map (fun i =>
    (List.range outF).map (fun j =>
      torchUniform (-(gcnStdv inF outF)) (gcnStdv inF outF) (u i j)))

/-- The bias vector after `self.bias.data.uniform_(-stdv, stdv)`
(present only when `bias=True`), with `u j ∈ [0, 1]` the draw for
entry `j`. -/
noncomputable def resetBias (inF outF : Nat) (u : Nat → ℝ) : List ℝ :=
  (List.range outF).map (fun j =>
    torchUniform (-(gcnStdv inF outF)) (gcnStdv inF outF) (u j))

/-- The optional bias stage of both forward paths, as a named stage. -/
def biasApply (b : Option (List α)) (h : Mat α) : Mat α :=
  match b with
  | some b => addBias h b
  | none => h

omit [CommRing α] in
theorem NData.get_set_same (nd : NData α) (k : String) (v : Mat α) :
    (nd.set k v).get k = some v := by
  simp [NData.get, NData.set, List.find?]

omit [CommRing α] in
theorem NData.get_erase_same (nd : NData α) (k : String) :
    (nd.erase k).get k = none := by
  induction nd with
  | nil => rfl
  | cons p t ih =>
    by_cases hp : p.1 = k
    · rw [show NData.erase (p :: t) k = NData.erase t k by
        simp [NData.erase, hp]]
      exact ih
    · rw [show NData.erase (p :: t) k = p :: NData.erase t k by
        simp [NData.erase, hp]]
      simpa [NData.get, List.find?, hp] using ih

omit [CommRing α] in
theorem NData.get_erase_ne (nd : NData α) (k k' : String) (hk : k' ≠ k) :
    (nd.erase k).get k' = nd.get k' := by
  have hkk : ¬(k = k') := fun h => hk h.symm
  induction nd with
  | nil => rfl
  | cons p t ih =>
    by_cases hp : p.1 = k
    · simpa [NData.erase, NData.get, List.find?, hp, hkk] using ih
    · by_cases hq : p.1 = k'
      · simp [NData.erase, NData.get, List.find?, hp, hq, hk]
      · simpa [NData.erase, NData.get, List.find?, hp, hq] using ih

omit [CommRing α] in
theorem NData.get_set_ne (nd : NData α) (k k' : String) (v : Mat α)
    (hk : k' ≠ k) : (nd.set k v).get k' = nd.get k' := by
  have hk' : k ≠ k' := fun h => hk h.symm
  simp [NData.set, NData.get, List.find?, hk']
  exact NData.get_erase_ne nd k k' hk

omit [CommRing α] in
/-- The store left behind by the `'h'` traffic of `GCNLayer.forward`
agrees with the incoming store on every key other than `'h'`. -/
theorem NData.get_after_h_traffic (nd : NData α) (x y : Mat α) (k : String)
    (hk : k ≠ "h") :
    (((nd.set "h" x).set "h" y).erase "h").get k = nd.get k := by
  rw [NData.get_erase_ne _ _ _ hk, NData.get_set_ne _ _ _ _ hk,
    NData.get_set_ne _ _ _ _ hk]

/-- Unfolding `GCNLayer.forward` on a store holding `'norm'`: the output
value and the exact store left behind. -/
theorem GCNLayer.forward_eq (l : GCNLayer α) (nd : NData α) (h : Mat α)
    (nrm : Mat α) (hn : nd.get "norm" = some nrm) :
    l.forward nd h =
      some (applyOpt l.activation
              (biasApply l.bias
                (bmul (spmv l.g
                  (bmul (matMul (applyOpt l.dropout h) l.weight) nrm)) nrm)),
            ((nd.set "h"
                (bmul (matMul (applyOpt l.dropout h) l.weight) nrm)).set "h"
              (spmv l.g
                (bmul (matMul (applyOpt l.dropout h) l.weight) nrm))).erase
              "h") := by
  have hne : ("norm" : String) ≠ "h" := by decide
  have hnorm2 : ∀ x y : Mat α,
      (((nd.set "h" x).set "h" y).erase "h").get "norm" = some nrm := by
    intro x y
    rw [NData.get_after_h_traffic _ _ _ _ hne]
    exact hn
  simp [GCNLayer.forward, Graph.updateAllCopySum, NData.pop, hn,
    NData.get_set_same, hnorm2, biasApply]

/-- A store without `'norm'` makes `GCNLayer.forward` fail at the first
lookup. -/
theorem GCNLayer.forward_none (l : GCNLayer α) (nd : NData α) (h : Mat α)
    (hn : nd.get "norm" = none) : l.forward nd h = none := by
  simp [GCNLayer.forward, hn]

/-- Frame helper: a successful `GCNLayer.forward` leaves no `'h'` key and
does not change `'norm'`. -/
theorem GCNLayer.forward_frame_aux (l : GCNLayer α) (nd : NData α)
    (h h' : Mat α) (nd' : NData α) (hf : l.forward nd h = some (h', nd')) :
    nd'.get "h" = none ∧ nd'.get "norm" = nd.get "norm" := by
  cases hn : nd.get "norm" with
  | none => rw [GCNLayer.forward_none l nd h hn] at hf; cases hf
  | some nrm =>
    rw [GCNLayer.forward_eq l nd h nrm hn] at hf
    have hnd' : nd' =
        ((nd.set "h"
            (bmul (matMul (applyOpt l.dropout h) l.weight) nrm)).set "h"
          (spmv l.g
            (bmul (matMul (applyOpt l.dropout h) l.weight) nrm))).erase
          "h" := (Prod.mk.injEq _ _ _ _ ▸ (Option.some.injEq _ _ ▸ hf)).2.symm
    subst hnd'
    refine ⟨NData.get_erase_same _ _, ?_⟩
    rw [NData.get_after_h_traffic _ _ _ _ (by decide), hn]

/-- A store holding `'norm'` makes `GCNLayer.forward` succeed. -/
theorem GCNLayer.forward_isSome (l : GCNLayer α) (nd : NData α) (h : Mat α)
    (hn : (nd.get "norm").isSome) : (l.forward nd h).isSome := by
  cases hg : nd.get "norm" with
  | none => rw [hg] at hn; cases hn
  | some nrm => rw [GCNLayer.forward_eq l nd h nrm hg]; rfl

/-- C1: for every input feature tensor `h`, `GCNLayer.forward` returns
the composition, in this order: dropout of `h` (only when a nonzero
dropout was configured), dense linear projection `h @ weight`,
elementwise multiplication by the graph's node data `'norm'`, the
message-passing sum over neighbors, a second elementwise multiplication
by `'norm'`, addition of bias (only when bias is present), and finally
the activation function (only when one was given). -/
theorem gcn_forward_is_pipeline (g : Graph) (act : Option (Mat α → Mat α))
    (p : ℚ) (dfn : Mat α → Mat α) (w : Mat α) (b : Option (List α))
    (nd : NData α) (h : Mat α) (nrm : Mat α)
    (hn : nd.get "norm" = some nrm) :
    ((GCNLayer.init g act p dfn w b).forward nd h).map Prod.fst =
      some (applyOpt act (biasApply b
        (bmul (spmv g
          (bmul (matMul (if p ≠ 0 then dfn h else h) w) nrm)) nrm))) := by
  rw [GCNLayer.forward_eq _ _ _ _ hn]
  by_cases hp : p = 0 <;> simp [GCNLayer.init, applyOpt, hp]

/-- Witness for C1 at a concrete one-node graph with a self-loop. -/
theorem gcn_forward_is_pipeline_witness :
    (NData.get (α := ℤ) [("norm", [[1]])] "norm" = some [[1]]) ∧
    ((GCNLayer.init (α := ℤ) ⟨1, [(0, 0)]⟩ none 0 id [[1]] none).forward
        [("norm", [[1]])] [[1]]).map Prod.fst =
      some (applyOpt none (biasApply none
        (bmul (spmv ⟨1, [(0, 0)]⟩
          (bmul (matMul (if (0 : ℚ) ≠ 0 then id [[(1 : ℤ)]] else [[1]])
            [[1]]) [[1]])) [[1]]))) :=
  ⟨by decide,
   gcn_forward_is_pipeline ⟨1, [(0, 0)]⟩ none 0 id [[1]] none
     [("norm", [[1]])] [[1]] [[1]] (by decide)⟩

/-- C7: every successful call of `GCNLayer.forward` leaves the store as
it found it with respect to `'h'` and `'norm'`: the key `'h'` (written
before `update_all`, removed by `pop` after) is absent from the returned
store, and `'norm'` is unchanged. -/
theorem gcn_forward_frame (l : GCNLayer α) (nd : NData α) (h h' : Mat α)
    (nd' : NData α) (hf : l.forward nd h = some (h', nd')) :
    nd'.get "h" = none ∧ nd'.get "norm" = nd.get "norm" :=
  GCNLayer.forward_frame_aux l nd h h' nd' hf

/-- Witness for C7 on a concrete two-node cycle. -/
theorem gcn_forward_frame_witness :
    ((⟨⟨2, [(0, 1), (1, 0)]⟩, [[1]], none, none, none⟩ :
        GCNLayer ℤ).forward [("norm", [[1], [1]])] [[1], [2]] =
      some ([[2], [1]], [("norm", [[1], [1]])])) ∧
    NData.get (α := ℤ) [("norm", [[1], [1]])] "h" = none ∧
    NData.get (α := ℤ) [("norm", [[1], [1]])] "norm" =
      NData.get (α := ℤ) [("norm", [[1], [1]])] "norm" :=
  ⟨by decide,
   gcn_forward_frame ⟨⟨2, [(0, 1), (1, 0)]⟩, [[1]], none, none, none⟩
     [("norm", [[1], [1]])] [[1], [2]] [[2], [1]] [("norm", [[1], [1]])]
     (by decide)⟩

/-- C6: the module's own code has no error branches: `GCNLayer.forward`
fails exactly when the library-level store lookup of `'norm'` fails, and
whenever `'norm'` is present the whole multi-layer forward pass
(`GCN.forward`'s loop) succeeds — no failure is caught or produced by
this code itself. -/
theorem gcn_no_error_branches :
    (∀ (l : GCNLayer α) (nd : NData α) (h : Mat α),
        l.forward nd h = none ↔ nd.get "norm" = none) ∧
    (∀ (layers : List (GCNLayer α)) (nd : NData α) (h : Mat α),
        (nd.get "norm").isSome → (GCN.forwardLayers layers nd h).isSome) := by
  constructor
  · intro l nd h
    constructor
    · intro hf
      cases hn : nd.get "norm" with
      | none => rfl
      | some nrm =>
        rw [GCNLayer.forward_eq l nd h nrm hn] at hf
        cases hf
    · exact GCNLayer.forward_none l nd h
  · intro layers
    induction layers with
    | nil => intro nd h _; rfl
    | cons l ls ih =>
      intro nd h hn
      cases hg : nd.get "norm" with
      | none => rw [hg] at hn; cases hn
      | some nrm =>
        simp only [GCN.forwardLayers, GCNLayer.forward_eq l nd h nrm hg]
        apply ih
        rw [NData.get_after_h_traffic _ _ _ _ (by decide), hg]
        rfl

/-- Witness for C6: a concrete one-layer run succeeds with `'norm'`
present, and a concrete forward on a store without `'norm'` fails. -/
theorem gcn_no_error_branches_witness :
    (GCN.forwardLayers (α := ℤ)
        [⟨⟨2, [(0, 1), (1, 0)]⟩, [[1]], none, none, none⟩]
        [("norm", [[1], [1]])] [[1], [2]]).isSome ∧
    (⟨⟨2, [(0, 1), (1, 0)]⟩, [[1]], none, none, none⟩ :
        GCNLayer ℤ).forward [] [[1], [2]] = none :=
  ⟨gcn_no_error_branches.2 _ [("norm", [[1], [1]])] [[1], [2]] (by decide),
   (gcn_no_error_branches.1 _ [] [[1], [2]]).mpr (by decide)⟩

omit [CommRing α] in
theorem vecAdd_length (a b : List α) [CommRing α] :
    (vecAdd a b).length = min a.length b.length := by
  simp [vecAdd]

theorem zeroVec_getD (d j : Nat) : (zeroVec α d).getD j 0 = 0 := by
  rw [zeroVec, List.getD_eq_getD_get?]
  simp [List.getElem?_getD_replicate_default_eq]

theorem vecAdd_getD (a b : List α) (j : Nat) (hja : j < a.length)
    (hjb : j < b.length) :
    (vecAdd a b).getD j 0 = a.getD j 0 + b.getD j 0 := by
  have hj : j < (vecAdd a b).length := by rw [vecAdd_length]; omega
  rw [List.getD_eq_getElem _ _ hj, List.getD_eq_getElem _ _ hja,
    List.getD_eq_getElem _ _ hjb]
  simp [vecAdd]

theorem foldl_vecAdd_length (L : List (List α)) (acc : List α) (d : Nat)
    (hacc : acc.length = d) (hL : ∀ x ∈ L, x.length = d) :
    (L.foldl vecAdd acc).length = d := by
  induction L generalizing acc with
  | nil => simpa
  | cons x t ih =>
    simp only [List.foldl_cons]
    refine ih (vecAdd acc x) ?_ (fun y hy => hL y (by simp [hy]))
    rw [vecAdd_length, hacc, hL x (by simp)]
    omega

theorem foldl_vecAdd_getD (L : List (List α)) (acc : List α) (d j : Nat)
    (hacc : acc.length = d) (hL : ∀ x ∈ L, x.length = d) (hj : j < d) :
    (L.foldl vecAdd acc).getD j 0 =
      acc.getD j 0 + (L.map (fun x => x.getD j 0)).sum := by
  induction L generalizing acc with
  | nil => simp
  | cons x t ih =>
    simp only [List.foldl_cons, List.map_cons, List.sum_cons]
    rw [ih (vecAdd acc x)
        (by rw [vecAdd_length, hacc, hL x (by simp)]; omega)
        (fun y hy => hL y (by simp [hy])),
      vecAdd_getD _ _ _ (by omega) (by rw [hL x (by simp)]; omega)]
    ring

theorem sumVecs_getD (L : List (List α)) (d j : Nat)
    (hL : ∀ x ∈ L, x.length = d) (hj : j < d) :
    (sumVecs d L).getD j 0 = (L.map (fun x => x.getD j 0)).sum := by
  rw [sumVecs, foldl_vecAdd_getD L (zeroVec α d) d j (by simp [zeroVec]) hL hj,
    zeroVec_getD, zero_add]

theorem getRowD_length (h : Mat α) (u d : Nat)
    (hrows : ∀ row ∈ h, row.length = d) : (getRowD h u d).length = d := by
  rw [getRowD]
  by_cases hu : u < h.length
  · rw [List.getD_eq_getElem _ _ hu]
    exact hrows _ (List.getElem_mem hu)
  · rw [List.getD_eq_default _ _ (le_of_not_lt hu)]
    simp [zeroVec]

theorem getRowD_getD (h : Mat α) (u d j : Nat) :
    (getRowD h u d).getD j 0 = matEntry h u j := by
  rw [getRowD, matEntry]
  by_cases hu : u < h.length
  · rw [List.getD_eq_getElem _ _ hu, List.getD_eq_getElem _ _ hu]
  · rw [List.getD_eq_default _ _ (le_of_not_lt hu),
      List.getD_eq_default _ _ (le_of_not_lt hu), zeroVec_getD]
    simp

/-- Row `v` of the `spmv` result, for an existing node `v`. -/
theorem spmv_row (g : Graph) (h : Mat α) (v : Nat) (hv : v < g.numNodes) :
    (spmv g h).getD v (zeroVec α (numCols h)) =
      sumVecs (numCols h)
        ((inEdges g v).map (fun e => getRowD h e.1 (numCols h))) := by
  rw [spmv, List.getD_eq_getElem _ _ (by simpa using hv)]
  simp

/-- C2: after `update_all(fn.copy_src(src='h', out='m'),
fn.sum(msg='m', out='h'))`, for every node `v`, the node feature `'h'`
of `v` equals the sum of the pre-call `'h'` feature vectors of `v`'s
message-sending neighbors (entrywise, it is the sum of the neighbors'
entries), and equals the zero vector when `v` has no such neighbors. -/
theorem update_all_neighbor_sum (g : Graph) (nd : NData α) (hm : Mat α)
    (hh : nd.get "h" = some hm)
    (hrows : ∀ row ∈ hm, row.length = numCols hm) :
    ∃ nd', g.updateAllCopySum nd = some nd' ∧
      nd'.get "h" = some (spmv g hm) ∧
      ∀ v, v < g.numNodes →
        (∀ j, j < numCols hm →
          matEntry (spmv g hm) v j =
            ((inEdges g v).map (fun e => matEntry hm e.1 j)).sum) ∧
        (inEdges g v = [] →
          getRowD (spmv g hm) v (numCols hm) = zeroVec α (numCols hm)) := by
  refine ⟨nd.set "h" (spmv g hm), ?_, NData.get_set_same _ _ _, ?_⟩
  · rw [Graph.updateAllCopySum, hh]
  · intro v hv
    constructor
    · intro j hj
      have hvlen : v < (spmv g hm).length := by simp [spmv, hv]
      have hrow : matEntry (spmv g hm) v j =
          ((spmv g hm).getD v (zeroVec α (numCols hm))).getD j 0 := by
        rw [matEntry, List.getD_eq_getElem _ _ hvlen,
          List.getD_eq_getElem _ _ hvlen]
      rw [hrow, spmv_row g hm v hv,
        sumVecs_getD _ _ _
          (by
            intro x hx
            obtain ⟨e, _, rfl⟩ := List.mem_map.mp hx
            exact getRowD_length hm e.1 _ hrows) hj,
        List.map_map]
      refine congrArg List.sum (List.map_congr_left ?_)
      intro e _
      exact getRowD_getD hm e.1 (numCols hm) j
    · intro hempty
      rw [getRowD, spmv_row g hm v hv, hempty]
      rfl

/-- Witness for C2 on a concrete two-node cycle. -/
theorem update_all_neighbor_sum_witness :
    (NData.get (α := ℤ) [("h", [[1], [2]])] "h" = some [[1], [2]]) ∧
    ∃ nd', Graph.updateAllCopySum (α := ℤ) ⟨2, [(0, 1), (1, 0)]⟩
        [("h", [[1], [2]])] = some nd' ∧
      nd'.get "h" = some (spmv ⟨2, [(0, 1), (1, 0)]⟩ [[1], [2]]) :=
  ⟨by decide,
   match update_all_neighbor_sum ⟨2, [(0, 1), (1, 0)]⟩ [("h", [[1], [2]])]
       [[1], [2]] (by decide) (by decide) with
   | ⟨nd', h1, h2, _⟩ => ⟨nd', h1, h2⟩⟩

omit [CommRing α] in
theorem matMul_length [CommRing α] (A B : Mat α) :
    (matMul A B).length = A.length := by
  simp [matMul]

omit [CommRing α] in
theorem bmul_length [CommRing α] (h nrm : Mat α) :
    (bmul h nrm).length = min h.length nrm.length := by
  simp [bmul]

theorem bmul_getElem (h nrm : Mat α) (v : Nat) (hv1 : v < h.length)
    (hv2 : v < nrm.length) :
    (bmul h nrm).get ⟨v, by rw [bmul_length]; omega⟩ =
      vecScale (h.get ⟨v, hv1⟩) (colScalar nrm v) := by
  simp only [bmul, List.get_eq_getElem, List.getElem_zipWith]
  rw [colScalar, List.getD_eq_getElem _ _ hv2]

theorem numCols_bmul (h nrm : Mat α) (hh : h ≠ []) (hn : nrm ≠ []) :
    numCols (bmul h nrm) = numCols h := by
  cases h with
  | nil => exact absurd rfl hh
  | cons a t =>
    cases nrm with
    | nil => exact absurd rfl hn
    | cons b s => simp [bmul, numCols, vecScale]

theorem getRowD_eq_get (m : Mat α) (u d : Nat) (hu : u < m.length) :
    getRowD m u d = m.get ⟨u, hu⟩ := by
  rw [getRowD, List.getD_eq_getElem _ _ hu, List.get_eq_getElem]

/-- The two normalizations of the builtin path collapse to the offloaded
per-node formula: multiplying by `'norm'` before the message-passing sum
and again after it equals summing `nb.h * nb.norm` over in-neighbors and
multiplying by `v.norm`. -/
theorem gcn_agg_eq_egl_agg (g : Graph) (nrm h2 : Mat α) (hwf : g.wf)
    (hlen : h2.length = g.numNodes) (hnlen : nrm.length = g.numNodes) :
    bmul (spmv g (bmul h2 nrm)) nrm = eglAggregate g nrm h2 := by
  have hsl : (spmv g (bmul h2 nrm)).length = g.numNodes := by simp [spmv]
  have hbl : (bmul h2 nrm).length = g.numNodes := by
    rw [bmul_length, hlen, hnlen]; omega
  apply List.ext_getElem
  · rw [bmul_length, hsl, hnlen, eglAggregate, List.length_map,
      List.length_range]
    omega
  · intro v hvl hvr
    have hv : v < g.numNodes := by
      rw [eglAggregate, List.length_map, List.length_range] at hvr
      exact hvr
    have hnz : g.numNodes ≠ 0 := by omega
    have hcols : numCols (bmul h2 nrm) = numCols h2 := by
      refine numCols_bmul h2 nrm ?_ ?_
      · intro he; rw [he] at hlen; exact hnz hlen.symm
      · intro he; rw [he] at hnlen; exact hnz hnlen.symm
    have hrow := bmul_getElem (spmv g (bmul h2 nrm)) nrm v
      (by omega : v < (spmv g (bmul h2 nrm)).length)
      (by omega : v < nrm.length)
    simp only [List.get_eq_getElem] at hrow
    rw [hrow]
    have hv2 : v < (spmv g (bmul h2 nrm)).length := by omega
    have hspmvrow : (spmv g (bmul h2 nrm)).get ⟨v, hv2⟩ =
        sumVecs (numCols (bmul h2 nrm))
          ((inEdges g v).map (fun e =>
            getRowD (bmul h2 nrm) e.1 (numCols (bmul h2 nrm)))) := by
      simp [spmv, hv]
    rw [List.get_eq_getElem] at hspmvrow
    rw [hspmvrow]
    simp only [eglAggregate, List.getElem_map, List.getElem_range]
    congr 1
    rw [hcols]
    refine congrArg (sumVecs (numCols h2)) (List.map_congr_left ?_)
    intro e he
    have hesrc : e.1 < g.numNodes :=
      (hwf e (List.mem_of_mem_filter he)).1
    rw [getRowD_eq_get _ _ _ (by omega : e.1 < (bmul h2 nrm).length)]
    have := bmul_getElem h2 nrm e.1 (by omega) (by omega)
    simp only [List.get_eq_getElem] at this ⊢
    rw [this, hcols, getRowD_eq_get _ _ _ (by omega : e.1 < h2.length)]
    simp only [List.get_eq_getElem]

/-- C3: with equal weight, bias, activation, the same graph, dropout
disabled on both paths, and the Egl layer's snapshot equal to the
graph's current node data `'norm'`, `EglGCNLayer.forward` returns the
same output as `GCNLayer.forward`: the offloaded
`sum([nb.h*nb.norm for nb in v.innbs])` followed by `h * v.norm` equals
the builtin path that multiplies by `'norm'` before the message-passing
sum and again after it. -/
theorem egl_layer_equals_gcn_layer (g : Graph) (w : Mat α)
    (b : Option (List α)) (act : Option (Mat α → Mat α)) (nd : NData α)
    (nrm h : Mat α) (hn : nd.get "norm" = some nrm) (hwf : g.wf)
    (hlen : h.length = g.numNodes) (hnlen : nrm.length = g.numNodes) :
    ((⟨g, w, b, act, none⟩ : GCNLayer α).forward nd h).map Prod.fst =
      some ((⟨g, nrm, w, b, act, none⟩ : EglGCNLayer α).forward nd h) := by
  rw [GCNLayer.forward_eq _ _ _ _ hn, Option.map_some']
  rw [EglGCNLayer.forward]
  have hml : (matMul h w).length = g.numNodes := by rw [matMul_length, hlen]
  simp only [applyOpt, biasApply]
  rw [gcn_agg_eq_egl_agg g nrm (matMul h w) hwf hml hnlen]

/-- Witness for C3 on a concrete two-node cycle over `ℤ`. -/
theorem egl_layer_equals_gcn_layer_witness :
    (NData.get (α := ℤ) [("norm", [[1], [1]])] "norm" = some [[1], [1]]) ∧
    (Graph.wf ⟨2, [(0, 1), (1, 0)]⟩) ∧
    ((⟨⟨2, [(0, 1), (1, 0)]⟩, [[1]], none, none, none⟩ :
        GCNLayer ℤ).forward [("norm", [[1], [1]])] [[1], [2]]).map
        Prod.fst =
      some ((⟨⟨2, [(0, 1), (1, 0)]⟩, [[1], [1]], [[1]], none, none, none⟩ :
        EglGCNLayer ℤ).forward [("norm", [[1], [1]])] [[1], [2]]) :=
  ⟨by decide, by decide,
   egl_layer_equals_gcn_layer ⟨2, [(0, 1), (1, 0)]⟩ [[1]] none none
     [("norm", [[1], [1]])] [[1], [1]] [[1], [2]] (by decide) (by decide)
     (by decide) (by decide)⟩

/-- C9: `EglGCNLayer.__init__` copies `g.ndata['norm']` into `self.norm`
once at construction, and every later `forward` uses only that snapshot:
two runs of `EglGCNLayer.forward` against any two stores (in particular
stores differing only in later modifications of `'norm'`) produce equal
outputs; whereas `GCNLayer.forward` reads `g.ndata['norm']` at call time
and is affected by such modifications (concrete one-node contrast). -/
theorem egl_norm_snapshot :
    (∀ (g : Graph) (nd0 : NData α) (act : Option (Mat α → Mat α)) (p : ℚ)
        (dfn : Mat α → Mat α) (w : Mat α) (b : Option (List α))
        (l : EglGCNLayer α),
        EglGCNLayer.init g nd0 act p dfn w b = some l →
          nd0.get "norm" = some l.norm ∧
          ∀ (nd1 nd2 : NData α) (h : Mat α),
            l.forward nd1 h = l.forward nd2 h) ∧
    ((⟨⟨1, [(0, 0)]⟩, [[1]], none, none, none⟩ : GCNLayer ℤ).forward
        [("norm", [[1]])] [[1]] ≠
      (⟨⟨1, [(0, 0)]⟩, [[1]], none, none, none⟩ : GCNLayer ℤ).forward
        [("norm", [[2]])] [[1]]) := by
  constructor
  · intro g nd0 act p dfn w b l hinit
    rw [EglGCNLayer.init] at hinit
    cases hg : nd0.get "norm" with
    | none => rw [hg] at hinit; cases hinit
    | some nrm =>
      rw [hg] at hinit
      simp only [Option.map_some'] at hinit
      cases hinit
      exact ⟨rfl, fun nd1 nd2 h => rfl⟩
  · decide

/-- Witness for C9: a concrete Egl layer construction and two runs over
stores holding different `'norm'` tensors, with equal outputs. -/
theorem egl_norm_snapshot_witness :
    (EglGCNLayer.init (α := ℤ) ⟨1, [(0, 0)]⟩ [("norm", [[1]])] none 0 id
        [[1]] none =
      some ⟨⟨1, [(0, 0)]⟩, [[1]], [[1]], none, none, none⟩) ∧
    (⟨⟨1, [(0, 0)]⟩, [[1]], [[1]], none, none, none⟩ :
        EglGCNLayer ℤ).forward [("norm", [[5]])] [[1]] =
      (⟨⟨1, [(0, 0)]⟩, [[1]], [[1]], none, none, none⟩ :
        EglGCNLayer ℤ).forward [("norm", [[7]])] [[1]] := by
  have hinit : EglGCNLayer.init (α := ℤ) ⟨1, [(0, 0)]⟩ [("norm", [[1]])]
      none 0 id [[1]] none =
      some ⟨⟨1, [(0, 0)]⟩, [[1]], [[1]], none, none, none⟩ := by
    simp [EglGCNLayer.init, NData.get, List.find?]
  exact ⟨hinit,
    (egl_norm_snapshot.1 ⟨1, [(0, 0)]⟩ [("norm", [[1]])] none 0 id [[1]]
      none _ hinit).2 [("norm", [[5]])] [("norm", [[7]])] [[1]]⟩

/-- Counterexample for C4: with bias present (the constructor default),
both forward paths perform three arithmetic operations of their own —
for `GCNLayer` the two `h * norm` normalizations and the `h + bias`
addition, for `EglGCNLayer` the `nb.h * nb.norm` of the comprehension,
the `h * v.norm` normalization, and the `h + bias` addition — not two. -/
theorem gcn_two_ops_counterexample :
    ((⟨⟨1, [(0, 0)]⟩, [[1]], some [1], none, none⟩ :
        GCNLayer ℤ).forwardCounted [("norm", [[1]])] [[1]]).map
      (fun p => p.2.2) = some 3 ∧
    ((⟨⟨1, [(0, 0)]⟩, [[1]], [[1]], some [1], none, none⟩ :
        EglGCNLayer ℤ).forwardCounted [("norm", [[1]])] [[1]]).2 = 3 ∧
    (3 : Nat) ≠ 2 :=
  ⟨by decide, by decide, by decide⟩

/-- C4 (amended): outside parameter initialization and the external
library calls, each forward path performs exactly two arithmetic
operations of its own (the two multiplications by `norm`) only when bias
is absent; with bias present (the default) each path also performs the
`h + bias` addition, for three in total. The instrumented forwards agree
with `GCNLayer.forward` and `EglGCNLayer.forward` on the computed
values (and store). -/
theorem gcn_arith_op_count (l : GCNLayer α) (le : EglGCNLayer α)
    (nd : NData α) (h : Mat α) (hn : (nd.get "norm").isSome) :
    ((l.forwardCounted nd h).map (fun p => p.2.2) =
      some (if l.bias.isSome then 3 else 2)) ∧
    ((l.forwardCounted nd h).map (fun p => (p.1, p.2.1)) =
      l.forward nd h) ∧
    ((le.forwardCounted nd h).2 = if le.bias.isSome then 3 else 2) ∧
    (le.forwardCounted nd h).1 = le.forward nd h := by
  refine ⟨?_, ?_, ?_, ?_⟩
  case _ | _ =>
    cases hg : nd.get "norm" with
    | none => rw [hg] at hn; cases hn
    | some nrm =>
      have hne : ("norm" : String) ≠ "h" := by decide
      have hnorm2 : ∀ x y : Mat α,
          (((nd.set "h" x).set "h" y).erase "h").get "norm" = some nrm := by
        intro x y
        rw [NData.get_after_h_traffic _ _ _ _ hne]
        exact hg
      cases hb : l.bias <;>
        simp [GCNLayer.forwardCounted, GCNLayer.forward,
          Graph.updateAllCopySum, NData.pop, hg, NData.get_set_same,
          hnorm2, hb]
  case _ | _ =>
    cases hb : le.bias <;>
      simp [EglGCNLayer.forwardCounted, EglGCNLayer.forward, hb]

/-- Witness for C4's amended claim: bias-free concrete layers perform
exactly two own arithmetic operations on both paths. -/
theorem gcn_arith_op_count_witness :
    (NData.get (α := ℤ) [("norm", [[1]])] "norm").isSome ∧
    ((⟨⟨1, [(0, 0)]⟩, [[1]], none, none, none⟩ :
        GCNLayer ℤ).forwardCounted [("norm", [[1]])] [[1]]).map
      (fun p => p.2.2) = some 2 ∧
    ((⟨⟨1, [(0, 0)]⟩, [[1]], [[1]], none, none, none⟩ :
        EglGCNLayer ℤ).forwardCounted [("norm", [[1]])] [[1]]).2 = 2 := by
  refine ⟨by decide, ?_, ?_⟩
  · have := (gcn_arith_op_count
      (⟨⟨1, [(0, 0)]⟩, [[1]], none, none, none⟩ : GCNLayer ℤ)
      (⟨⟨1, [(0, 0)]⟩, [[1]], [[1]], none, none, none⟩ : EglGCNLayer ℤ)
      [("norm", [[1]])] [[1]] (by decide)).1
    simpa using this
  · have := (gcn_arith_op_count
      (⟨⟨1, [(0, 0)]⟩, [[1]], none, none, none⟩ : GCNLayer ℤ)
      (⟨⟨1, [(0, 0)]⟩, [[1]], [[1]], none, none, none⟩ : EglGCNLayer ℤ)
      [("norm", [[1]])] [[1]] (by decide)).2.2.1
    simpa using this

/-- C5: after `reset_parameters` (called by both constructors), every
entry of the weight parameter lies in `[-stdv, stdv]` with
`stdv = 1/sqrt(weight.size(1)) = 1/sqrt(out_feats)`, and when bias is
present every entry of the bias parameter lies in the same interval
(the library's uniform draws `u ∈ [0, 1]` parametrize the sampling). -/
theorem reset_parameters_in_range (inF outF : Nat) (u : Nat → Nat → ℝ)
    (ub : Nat → ℝ) (hu : ∀ i j, u i j ∈ Set.Icc (0 : ℝ) 1)
    (hub : ∀ j, ub j ∈ Set.Icc (0 : ℝ) 1) :
    gcnStdv inF outF = 1 / Real.sqrt outF ∧
    (∀ row ∈ resetWeight inF outF u, ∀ x ∈ row,
      x ∈ Set.Icc (-(gcnStdv inF outF)) (gcnStdv inF outF)) ∧
    (∀ x ∈ resetBias inF outF ub,
      x ∈ Set.Icc (-(gcnStdv inF outF)) (gcnStdv inF outF)) := by
  have hs : 0 ≤ gcnStdv inF outF := by
    rw [gcnStdv]
    positivity
  refine ⟨rfl, ?_, ?_⟩
  · intro row hrow x hx
    rw [resetWeight] at hrow
    obtain ⟨i, _, rfl⟩ := List.mem_map.mp hrow
    obtain ⟨j, _, rfl⟩ := List.mem_map.mp hx
    obtain ⟨h0, h1⟩ := Set.mem_Icc.mp (hu i j)
    rw [Set.mem_Icc, torchUniform]
    constructor
    · nlinarith [mul_nonneg hs h0]
    · nlinarith [mul_le_mul_of_nonneg_left h1 hs]
  · intro x hx
    rw [resetBias] at hx
    obtain ⟨j, _, rfl⟩ := List.mem_map.mp hx
    obtain ⟨h0, h1⟩ := Set.mem_Icc.mp (hub j)
    rw [Set.mem_Icc, torchUniform]
    constructor
    · nlinarith [mul_nonneg hs h0]
    · nlinarith [mul_le_mul_of_nonneg_left h1 hs]

/-- Witness for C5 at `out_feats = 1` with all uniform draws `1/2`. -/
theorem reset_parameters_in_range_witness :
    (∀ i j : Nat, (fun _ _ => (1 : ℝ) / 2) i j ∈ Set.Icc (0 : ℝ) 1) ∧
    (∀ row ∈ resetWeight 1 1 (fun _ _ => (1 : ℝ) / 2), ∀ x ∈ row,
      x ∈ Set.Icc (-(gcnStdv 1 1)) (gcnStdv 1 1)) := by
  have hu : ∀ i j : Nat, (fun _ _ => (1 : ℝ) / 2) i j ∈ Set.Icc (0 : ℝ) 1 := by
    intro i j
    rw [Set.mem_Icc]
    norm_num
  have hub : ∀ j : Nat, (fun _ => (1 : ℝ) / 2) j ∈ Set.Icc (0 : ℝ) 1 := by
    intro j
    rw [Set.mem_Icc]
    norm_num
  exact ⟨hu,
    (reset_parameters_in_range 1 1 (fun _ _ => (1 : ℝ) / 2)
      (fun _ => (1 : ℝ) / 2) hu hub).2.1⟩

omit [CommRing α] in
theorem mapM_option_eq_map {β γ : Type} (f : β → Option γ) (gf : β → γ)
    (l : List β) (hf : ∀ a ∈ l, f a = some (gf a)) :
    l.mapM f = some (l.map gf) := by
  induction l with
  | nil => rfl
  | cons a t ih =>
    rw [List.mapM_cons, hf a (by simp), ih (fun b hb => hf b (by simp [hb]))]
    rfl

/-- `GCN.forward` applies the layer list left to right: appending one
more layer post-composes its `forward`. -/
theorem forwardLayers_append_one (ls : List (GCNLayer α)) (l : GCNLayer α)
    (nd : NData α) (h : Mat α) :
    GCN.forwardLayers (ls ++ [l]) nd h =
      (GCN.forwardLayers ls nd h).bind (fun q => l.forward q.2 q.1) := by
  induction ls generalizing nd h with
  | nil =>
    cases hq : l.forward nd h with
    | none => simp [GCN.forwardLayers, hq]
    | some q => simp [GCN.forwardLayers, hq]
  | cons l' t ih =>
    rw [List.cons_append, GCN.forwardLayers, GCN.forwardLayers]
    cases l'.forward nd h with
    | none => rfl
    | some q => exact ih q.2 q.1

/-- C8: for every `n_layers ≥ 1`, `GCN.__init__` builds exactly
`n_layers + 1` layer modules: one input layer with dropout `0.` (hence a
disabled dropout module) and the given activation, `n_layers - 1` hidden
layers with the given activation and dropout, and one output layer with
activation `None` and the given dropout; `GCN.forward` applies them in
that order; likewise `EglGCN.__init__` builds `n_layers + 1` modules. -/
theorem gcn_layer_schedule (nLayers : Nat) (g : Graph)
    (act : Option (Mat α → Mat α)) (p : ℚ) (dfn : Mat α → Mat α)
    (ws : Nat → Mat α) (bs : Nat → List α) (nd : NData α) (nrm : Mat α)
    (hn1 : 1 ≤ nLayers) (hnd : nd.get "norm" = some nrm) :
    (GCN.mkLayers g nLayers act p dfn ws bs).length = nLayers + 1 ∧
    (GCN.mkLayers g nLayers act p dfn ws bs).head? =
      some (GCNLayer.init g act 0 dfn (ws 0) (some (bs 0))) ∧
    (GCNLayer.init g act 0 dfn (ws 0) (some (bs 0))).dropout =
      (none : Option (Mat α → Mat α)) ∧
    (GCNLayer.init g act 0 dfn (ws 0) (some (bs 0))).activation = act ∧
    (∀ i, i < nLayers - 1 →
      (GCN.mkLayers g nLayers act p dfn ws bs)[i + 1]? =
        some (GCNLayer.init g act p dfn (ws (i + 1)) (some (bs (i + 1))))) ∧
    (GCN.mkLayers g nLayers act p dfn ws bs).getLast? =
      some (GCNLayer.init g none p dfn (ws nLayers) (some (bs nLayers))) ∧
    (GCNLayer.init g none p dfn (ws nLayers)
      (some (bs nLayers))).activation = (none : Option (Mat α → Mat α)) ∧
    (∀ (ls : List (GCNLayer α)) (l : GCNLayer α) (nd' : NData α)
        (h : Mat α),
      GCN.forwardLayers (ls ++ [l]) nd' h =
        (GCN.forwardLayers ls nd' h).bind (fun q => l.forward q.2 q.1)) ∧
    (∃ els, EglGCN.mkLayers g nd nLayers act p dfn ws bs = some els ∧
      els.length = nLayers + 1) := by
  have hinit1 : ∀ (act' : Option (Mat α → Mat α)) (pp : ℚ) (k : Nat),
      EglGCNLayer.init g nd act' pp dfn (ws k) (some (bs k)) =
        some { g := g, norm := nrm, weight := ws k, bias := some (bs k),
               activation := act',
               dropout := if pp ≠ 0 then some dfn else none } := by
    intro act' pp k
    rw [EglGCNLayer.init, hnd]
    rfl
  refine ⟨?_, rfl, ?_, rfl, ?_, ?_, rfl, forwardLayers_append_one, ?_⟩
  · simp [GCN.mkLayers]
    omega
  · simp [GCNLayer.init]
  · intro i hi
    simp only [GCN.mkLayers, List.singleton_append, List.cons_append,
      List.getElem?_cons_succ]
    rw [List.getElem?_append]
    simp [List.getElem?_map, List.getElem?_range, hi]
  · rw [show GCN.mkLayers g nLayers act p dfn ws bs =
        ([GCNLayer.init g act 0 dfn (ws 0) (some (bs 0))] ++
          (List.range (nLayers - 1)).map (fun i =>
            GCNLayer.init g act p dfn (ws (i + 1)) (some (bs (i + 1))))) ++
        [GCNLayer.init g none p dfn (ws nLayers) (some (bs nLayers))] by
          simp [GCN.mkLayers]]
    exact List.getLast?_concat _
  · refine ⟨[{ g := g, norm := nrm, weight := ws 0, bias := some (bs 0),
               activation := act,
               dropout := if (0 : ℚ) ≠ 0 then some dfn else none }] ++
            (List.range (nLayers - 1)).map (fun i =>
              { g := g, norm := nrm, weight := ws (i + 1),
                bias := some (bs (i + 1)), activation := act,
                dropout := if p ≠ 0 then some dfn else none }) ++
            [{ g := g, norm := nrm, weight := ws nLayers,
               bias := some (bs nLayers), activation := none,
               dropout := if p ≠ 0 then some dfn else none }], ?_, ?_⟩
    · rw [EglGCN.mkLayers]
      rw [hinit1 act 0 0, hinit1 none p nLayers,
        mapM_option_eq_map _
          (fun i => { g := g, norm := nrm, weight := ws (i + 1),
                      bias := some (bs (i + 1)), activation := act,
                      dropout := if p ≠ 0 then some dfn else none }) _
          (fun a _ => hinit1 act p (a + 1))]
    · simp
      omega

/-- Witness for C8 at `n_layers = 2` over `ℤ`. -/
theorem gcn_layer_schedule_witness :
    (GCN.mkLayers (α := ℤ) ⟨1, [(0, 0)]⟩ 2 none 1 id (fun _ => [[1]])
      (fun _ => [1])).length = 3 ∧
    ∃ els, EglGCN.mkLayers (α := ℤ) ⟨1, [(0, 0)]⟩ [("norm", [[1]])] 2 none
        1 id (fun _ => [[1]]) (fun _ => [1]) = some els ∧
      els.length = 3 := by
  have hth := gcn_layer_schedule (α := ℤ) 2 ⟨1, [(0, 0)]⟩ none 1 id
    (fun _ => [[1]]) (fun _ => [1]) [("norm", [[1]])] [[1]]
    (by decide) (by decide)
  exact ⟨hth.1, hth.2.2.2.2.2.2.2.2⟩
